import Mathlib

/-!
# Verification of the finyap session engine

A shallow embedding, in Lean 4, of the core logic of the finyap vocabulary
drill game (Go implementation).  Strings are modelled as lists of Unicode
code points (`List Char`), matching Go's rune-by-rune iteration over UTF-8
strings.  Randomness (`rand.Shuffle`) is modelled by an explicit `shuffle`
function parameter, about which theorems assume only that it permutes its
input.  Database writes are modelled as an explicit effect list returned by
each transition.
-/

/-- Models Go's `unicode.ToLower` on the alphabet this program manipulates:
ASCII letters and the Latin-1 uppercase letters (which covers the Finnish
letters Ä, Ö, Å used by the game's content and clitic list).  Characters
outside these ranges pass through unchanged. -/
def goToLower (c : Char) : Char :=
  if 'A' ≤ c ∧ c ≤ 'Z' then Char.ofNat (c.toNat + 32)
  else if 0xC0 ≤ c.toNat ∧ c.toNat ≤ 0xDE ∧ c.toNat ≠ 0xD7 then Char.ofNat (c.toNat + 32)
  else c

/-- The cutset of `strings.Trim` in `cleanWord`: `.,!?;:"()[]{}„“`. -/
def trimCutset : List Char :=
  ['.', ',', '!', '?', ';', ':', '"', '(', ')', '[', ']', '\x7b', '\x7d', '„', '“']

/-- Go `strings.Trim s cutset`: removes leading and trailing characters
belonging to the cutset. -/
def goTrim (cutset : List Char) (s : List Char) : List Char :=
  ((s.dropWhile (fun c => c ∈ cutset)).reverse.dropWhile (fun c => c ∈ cutset)).reverse

/-- Embeds `cleanWord` from the Go source: lowercase, then trim the fixed
leading/trailing punctuation set. -/
def cleanWord (s : List Char) : List Char :=
  goTrim trimCutset (s.map goToLower)

/-- The per-character case analysis of `cipherWord`'s loop body. -/
def cipherChar (c : Char) : Char :=
  if c ∈ "aouAOU".toList then 'U'
  else if c ∈ "eiEI".toList then 'E'
  else if c ∈ "äöyÄÖY".toList then 'Ä'
  else if c ∈ "bcdfghjklmnpqrstvwxzBCDFGHJKLMNPQRSTVWXZ".toList then 'x'
  else c

/-- Embeds `cipherWord` from the Go source: apply `cipherChar` to each rune. -/
def cipherWord (s : List Char) : List Char :=
  s.map cipherChar

/-- The fixed clitic suffix list `CLITICS` from the Go source, in its fixed
order. -/
def CLITICS : List (List Char) :=
  ["kaan", "kään", "kin", "han", "hän", "ko", "kö", "pa", "pä"].map String.toList

/-- The inner `for _, clitic := range CLITICS` loop with `break`: the first
clitic in list order that is a case-insensitive suffix of the stem. -/
def findClitic (stem : List Char) : Option (List Char) :=
  CLITICS.find? (fun cl => cl.isSuffixOf (stem.map goToLower))

/-- The iterative suffix-stripping `for { ... }` loop shared by
`cipherWordWithClitics` and `applyCliticStyling`: repeatedly detach the first
matching clitic from the end of the stem (keeping its original casing) and
accumulate it, until a pass finds no match.  The loop strictly shrinks the
stem on every iteration, so a fuel of `stem.length` always suffices. -/
def segmentAux : Nat → List Char → List Char × List (List Char)
  | 0, stem => (stem, [])
  | fuel + 1, stem =>
    match findClitic stem with
    | none => (stem, [])
    | some cl =>
      let r := segmentAux fuel (stem.take (stem.length - cl.length))
      (r.1, r.2 ++ [stem.drop (stem.length - cl.length)])

/-- `segment(word) -> (stem, clitics)`: the clitic-segmentation loop of the
Go source run to completion on `word`. -/
def segmentWord (w : List Char) : List Char × List (List Char) :=
  segmentAux w.length w

/-- Embeds `cipherWordWithClitics` from the Go source, with terminal styling
dropped (styling is a rendering concern): cipher the stem and each detached
clitic, and concatenate them back in order. -/
def cipherWordWithClitics (word : List Char) : List Char :=
  cipherWord (segmentWord word).1 ++ ((segmentWord word).2.map cipherWord).flatten

/-- Embeds `diffStrings` from the Go source.  The Go code walks positions
`0 ..< max len` of the two rune slices in lockstep; this recursion performs
the identical per-position computation.  Each emitted character carries a
mismatch flag (`true` = rendered with the mismatch style, `false` =
unstyled). -/
def diffStrings : List Char → List Char → List (Char × Bool) × List (Char × Bool)
  | [], ts => ([], ts.map (fun t => (t, true)))
  | is, [] => (is.map (fun i => (i, true)), [])
  | i :: is, t :: ts =>
    let rest := diffStrings is ts
    if goToLower i = goToLower t then
      ((i, false) :: rest.1, (t, false) :: rest.2)
    else
      ((i, true) :: rest.1, (t, true) :: rest.2)

/-! ## Data model and the round state machine -/

/-- Embeds the `Sentence` struct. -/
structure Sentence where
  id : Int
  scenario : String
  finnish : String
  english : String
  words : List (List Char)
  cleanWords : List (List Char)
deriving DecidableEq

/-- The zero value used when modelling Go slice indexing totally. -/
def defaultSentence : Sentence :=
  { id := 0, scenario := "", finnish := "", english := "", words := [], cleanWords := [] }

/-- Embeds the `wordAttemptData` struct.  `duration` is the elapsed time
(an environment input) in an abstract unit. -/
structure WordAttemptData where
  wordIndex : Nat
  userInput : List Char
  isCorrect : Bool
  duration : Nat
deriving DecidableEq

/-- The two `gameState` values reachable inside `updatePlaying`'s Enter
branch (`statePlaying` and `stateRoundOver`); the setup states are outside
the round state machine. -/
inductive GState where
  | playing
  | roundOver
deriving DecidableEq

/-- The externally observable calls a transition makes: the two persistence
writes (`logPlay`, `logSentenceResult`) and program termination
(`tea.Quit`). -/
inductive Effect where
  | logPlay (sentenceId : Int) (wasCorrect : Bool)
  | logSentenceResult (sentenceId : Int) (wasSuccessful : Bool)
      (attempts : List WordAttemptData)
  | quit
deriving DecidableEq

/-- `true` exactly for the effects that write a record to the database. -/
def Effect.isPersisted : Effect → Bool
  | .logPlay _ _ => true
  | .logSentenceResult _ _ _ => true
  | .quit => false

/-- The fields of the Go `model` struct that the round state machine reads
or writes. -/
structure Model where
  state : GState
  allSentences : List Sentence
  sessionSentences : List Sentence
  sentenceIdx : Nat
  wordIdx : Nat
  roundAnalytics : List WordAttemptData
  roundResultIsCorrect : Bool
  isRecoveryRound : Bool
  failedSentenceIDs : List Int
deriving DecidableEq

/-- Go slice indexing `l[i]` on `[]Sentence`, made total with the zero
value (all theorems carry the in-bounds hypotheses the Go code relies on). -/
def sentAt (l : List Sentence) (i : Nat) : Sentence :=
  l.getD i defaultSentence

/-- Go slice indexing `l[i]` on `[]string`, made total with the zero value. -/
def wordAt (l : List (List Char)) (i : Nat) : List Char :=
  l.getD i []

/-- `m.failedSentenceIDs[id] = true` on the Go `map[int64]bool`: set-like
insertion. -/
def insertId (l : List Int) (id : Int) : List Int :=
  if id ∈ l then l else l ++ [id]

/-- Building `allSentencesMap` (`map[int64]Sentence`, later entries with the
same key overwrite earlier ones) and looking up `id` in it. -/
def lookupById (l : List Sentence) (id : Int) : Option Sentence :=
  l.foldl (fun acc s => if s.id = id then some s else acc) none

/-- The failure set as it stands right after the `stateRoundOver`
acknowledgment records the just-completed sentence: if the sentence was a
failure its identifier is inserted. -/
def ackFailureSet (m : Model) : List Int :=
  if m.roundResultIsCorrect then m.failedSentenceIDs
  else insertId m.failedSentenceIDs (sentAt m.sessionSentences m.sentenceIdx).id

/-- Building the recovery queue: resolve each failed identifier through
`allSentencesMap`, dropping identifiers that do not resolve, then shuffle. -/
def recoveryQueue (shuffle : List Sentence → List Sentence) (m : Model)
    (failed : List Int) : List Sentence :=
  shuffle (failed.filterMap (lookupById m.allSentences))

/-- The `m.state == stateRoundOver` branch of `updatePlaying`'s Enter
handler: record the completed sentence's failure, advance the sentence
index; at the end of the queue either quit (no failures) or start a
shuffled recovery round over the failed sentences; otherwise continue with
the next sentence. -/
def updateRoundOverEnter (shuffle : List Sentence → List Sentence)
    (m : Model) : Model × List Effect :=
  let failed := ackFailureSet m
  let idx := m.sentenceIdx + 1
  if m.sessionSentences.length ≤ idx then
    if failed.isEmpty then
      ({ m with failedSentenceIDs := failed, sentenceIdx := idx }, [Effect.quit])
    else
      ({ m with
          sessionSentences := recoveryQueue shuffle m failed,
          isRecoveryRound := true,
          failedSentenceIDs := [],
          sentenceIdx := 0,
          state := GState.playing,
          wordIdx := 0,
          roundAnalytics := [],
          roundResultIsCorrect := m.roundResultIsCorrect }, [])
  else
    ({ m with
        failedSentenceIDs := failed,
        sentenceIdx := idx,
        state := GState.playing,
        wordIdx := 0,
        roundAnalytics := [] }, [])

/-- The word-submission branch of `updatePlaying`'s Enter handler:
normalize the input, compare with the normalized target, record a
`wordAttemptData` unconditionally, log a play unless in a recovery round,
and either advance within the sentence or end the round (logging a sentence
result unless in a recovery round). -/
def submitGuess (m : Model) (inputVal : List Char) (dur : Nat) :
    Model × List Effect :=
  let currentSentence := sentAt m.sessionSentences m.sentenceIdx
  let targetWord := wordAt currentSentence.cleanWords m.wordIdx
  let userInput := cleanWord inputVal
  let isCorrect : Bool := userInput = targetWord
  let attempt : WordAttemptData :=
    { wordIndex := m.wordIdx, userInput := inputVal, isCorrect := isCorrect,
      duration := dur }
  let analytics := m.roundAnalytics ++ [attempt]
  let isSentenceComplete : Bool := currentSentence.words.length ≤ m.wordIdx + 1
  let playLog : List Effect :=
    if m.isRecoveryRound then [] else [Effect.logPlay currentSentence.id isCorrect]
  let m1 := { m with
      roundAnalytics := analytics,
      roundResultIsCorrect := isCorrect && isSentenceComplete }
  if isCorrect then
    if isSentenceComplete then
      ({ m1 with wordIdx := m.wordIdx + 1, state := GState.roundOver },
       playLog ++
         if m.isRecoveryRound then []
         else [Effect.logSentenceResult currentSentence.id true analytics])
    else
      ({ m1 with wordIdx := m.wordIdx + 1 }, playLog)
  else
    ({ m1 with state := GState.roundOver },
     playLog ++
       if m.isRecoveryRound then []
       else [Effect.logSentenceResult currentSentence.id false analytics])

/-- The `tea.KeyEnter` case of `updatePlaying` (the only transition that
submits guesses, completes sentences, or schedules recovery rounds).
`inputVal` is the current text-input contents and `dur` the elapsed
per-word time, both environment inputs. -/
def updatePlayingEnter (shuffle : List Sentence → List Sentence)
    (inputVal : List Char) (dur : Nat) (m : Model) : Model × List Effect :=
  if m.state = GState.roundOver then updateRoundOverEnter shuffle m
  else submitGuess m inputVal dur

/-- Runs a sequence of Enter events (each an input string paired with its
elapsed duration) through `updatePlayingEnter`, discarding effects. -/
def runEnters (shuffle : List Sentence → List Sentence) (m : Model) :
    List (List Char × Nat) → Model
  | [] => m
  | (inp, d) :: rest => runEnters shuffle (updatePlayingEnter shuffle inp d m).1 rest

/-- The session-composition loop in `updateScenarioSelection`'s Enter
handler: for each selected scenario in order, gather its sentences
(grouping `allSentences` by scenario preserves their relative order),
shuffle them, and append the first `min(quota, available)` of them. -/
def updateScenarioSelectionEnter (shuffle : List Sentence → List Sentence)
    (allSentences : List Sentence) (orderedSelectedScenarios : List String)
    (sentencesPerScenario : Nat) : List Sentence :=
  orderedSelectedScenarios.foldl
    (fun acc scenarioName =>
      let scenarioSentences := allSentences.filter (fun s => s.scenario = scenarioName)
      if scenarioSentences.length = 0 then acc
      else
        acc ++ (shuffle scenarioSentences).take
          (min sentencesPerScenario scenarioSentences.length))
    []

example : cleanWord "Minä!".toList = "minä".toList := by decide
example : cleanWord "...".toList = [] := by decide
example : cipherWord "talo".toList = "xUxU".toList := by decide
example : segmentWord "taloakin".toList = ("taloa".toList, ["kin".toList]) := by decide
example : segmentWord "pakin".toList = ([], ["pa".toList, "kin".toList]) := by decide
example :
    diffStrings "talo".toList "talon".toList =
      ([('t', false), ('a', false), ('l', false), ('o', false)],
       [('t', false), ('a', false), ('l', false), ('o', false), ('n', true)]) := by
  decide

/-! ## Lemmas about the clitic segmentation loop -/

lemma clitic_two_le_length : ∀ cl ∈ CLITICS, 2 ≤ cl.length := by decide

lemma findClitic_mem {stem cl : List Char} (h : findClitic stem = some cl) :
    cl ∈ CLITICS :=
  List.mem_of_find?_eq_some h

lemma findClitic_suffix {stem cl : List Char} (h : findClitic stem = some cl) :
    cl <:+ stem.map goToLower := by
  have h' : CLITICS.find? (fun c => c.isSuffixOf (stem.map goToLower)) = some cl := h
  have h2 := List.find?_some h'
  exact List.isSuffixOf_iff_suffix.mp h2

lemma findClitic_length_le {stem cl : List Char} (h : findClitic stem = some cl) :
    cl.length ≤ stem.length := by
  have := (findClitic_suffix h).length_le
  simpa using this

lemma findClitic_drop_lower {stem cl : List Char} (h : findClitic stem = some cl) :
    (stem.drop (stem.length - cl.length)).map goToLower = cl := by
  have hd := List.suffix_iff_eq_drop.mp (findClitic_suffix h)
  rw [List.length_map] at hd
  rw [List.map_drop]
  exact hd.symm

lemma segmentAux_spec :
    ∀ (fuel : Nat) (stem : List Char), stem.length ≤ fuel →
      (segmentAux fuel stem).1 ++ (segmentAux fuel stem).2.flatten = stem ∧
      findClitic (segmentAux fuel stem).1 = none ∧
      (∀ c ∈ (segmentAux fuel stem).2, c.map goToLower ∈ CLITICS) := by
  intro fuel
  induction fuel with
  | zero =>
    intro stem h
    have hnil : stem = [] := List.eq_nil_of_length_eq_zero (Nat.le_zero.mp h)
    subst hnil
    refine ⟨rfl, by decide, by simp [segmentAux]⟩
  | succ n ih =>
    intro stem h
    cases hf : findClitic stem with
    | none =>
      refine ⟨by simp [segmentAux, hf], by simp [segmentAux, hf, hf], ?_⟩
      simp [segmentAux, hf]
    | some cl =>
      have hmem : cl ∈ CLITICS := findClitic_mem hf
      have hlen : cl.length ≤ stem.length := findClitic_length_le hf
      have h2 : 2 ≤ cl.length := clitic_two_le_length cl hmem
      have htake : (stem.take (stem.length - cl.length)).length ≤ n := by
        rw [List.length_take]
        omega
      obtain ⟨hrec, hnone, hparts⟩ := ih (stem.take (stem.length - cl.length)) htake
      refine ⟨?_, ?_, ?_⟩
      · show (segmentAux (n+1) stem).1 ++ (segmentAux (n+1) stem).2.flatten = stem
        simp only [segmentAux, hf, List.flatten_append]
        rw [← List.append_assoc, hrec]
        simp [List.take_append_drop]
      · simp only [segmentAux, hf]
        exact hnone
      · intro c hc
        simp only [segmentAux, hf, List.mem_append, List.mem_singleton] at hc
        rcases hc with hc | hc
        · exact hparts c hc
        · subst hc
          rw [findClitic_drop_lower hf]
          exact hmem

lemma segmentWord_spec (w : List Char) :
    (segmentWord w).1 ++ (segmentWord w).2.flatten = w ∧
    findClitic (segmentWord w).1 = none ∧
    (∀ c ∈ (segmentWord w).2, c.map goToLower ∈ CLITICS) :=
  segmentAux_spec w.length w le_rfl

lemma segmentWord_of_no_match (w : List Char)
    (h : ∀ cl ∈ CLITICS, cl.isSuffixOf (w.map goToLower) = false) :
    segmentWord w = (w, []) := by
  have hnone : findClitic w = none :=
    List.find?_eq_none.mpr (fun cl hm => by simp [h cl hm])
  unfold segmentWord
  cases hl : w.length with
  | zero => rfl
  | succ n => simp [segmentAux, hnone]

/-! ## Lemmas about the diff engine -/

lemma diffStrings_length :
    ∀ input target : List Char,
      (diffStrings input target).1.length = input.length ∧
      (diffStrings input target).2.length = target.length := by
  intro input
  induction input with
  | nil => intro target; simp [diffStrings]
  | cons i is ih =>
    intro target
    cases target with
    | nil => simp [diffStrings]
    | cons t ts =>
      obtain ⟨h1, h2⟩ := ih ts
      by_cases hc : goToLower i = goToLower t <;>
        simp [diffStrings, hc, h1, h2]

lemma diffStrings_input_char :
    ∀ (input target : List Char) (n : Nat) (a : Char), input[n]? = some a →
      (diffStrings input target).1[n]? =
        some (a, match target[n]? with
                 | some b => decide (goToLower a ≠ goToLower b)
                 | none => true) := by
  intro input
  induction input with
  | nil => intro target n a h; simp at h
  | cons i is ih =>
    intro target n a h
    cases target with
    | nil =>
      simp only [diffStrings]
      rw [List.getElem?_map, h]
      rfl
    | cons t ts =>
      cases n with
      | zero =>
        simp only [List.getElem?_cons_zero, Option.some_inj] at h
        subst h
        by_cases hc : goToLower i = goToLower t <;>
          simp [diffStrings, hc]
      | succ n =>
        simp only [List.getElem?_cons_succ] at h
        by_cases hc : goToLower i = goToLower t <;>
          simpa [diffStrings, hc] using ih ts n a h

lemma diffStrings_target_char :
    ∀ (input target : List Char) (n : Nat) (b : Char), target[n]? = some b →
      (diffStrings input target).2[n]? =
        some (b, match input[n]? with
                 | some a => decide (goToLower a ≠ goToLower b)
                 | none => true) := by
  intro input
  induction input with
  | nil =>
    intro target n b h
    simp only [diffStrings]
    rw [List.getElem?_map, h]
    rfl
  | cons i is ih =>
    intro target n b h
    cases target with
    | nil => simp at h
    | cons t ts =>
      cases n with
      | zero =>
        obtain rfl : t = b := by simpa using h
        by_cases hc : goToLower i = goToLower t <;>
          simp [diffStrings, hc]
      | succ n =>
        simp only [List.getElem?_cons_succ] at h
        by_cases hc : goToLower i = goToLower t <;>
          simpa [diffStrings, hc] using ih ts n b h

/-! ## Claim theorems for the word-transformation pipeline -/

/-- C7: the clitic segmenter repeatedly detaches the first case-insensitive
clitic-list suffix match, preserving its original casing and prepending it
to the accumulated clitics, until a full pass finds no match; stacked
clitics are all detached and an empty stem is permitted;
`segment("taloakin")` yields stem `"taloa"` with clitics `["kin"]`, and a
word with no matching suffix is returned unchanged with no clitics. -/
theorem clitic_segmentation_spec :
    segmentWord "taloakin".toList = ("taloa".toList, ["kin".toList]) ∧
    segmentWord "taloaKIN".toList = ("taloa".toList, ["KIN".toList]) ∧
    segmentWord "pakin".toList = ([], ["pa".toList, "kin".toList]) ∧
    (∀ w : List Char,
       (∀ cl ∈ CLITICS, cl.isSuffixOf (w.map goToLower) = false) →
       segmentWord w = (w, [])) ∧
    (∀ w : List Char, (segmentWord w).1 ++ (segmentWord w).2.flatten = w) ∧
    (∀ w : List Char, ∀ cl ∈ CLITICS,
       cl.isSuffixOf ((segmentWord w).1.map goToLower) = false) ∧
    (∀ w : List Char, ∀ c ∈ (segmentWord w).2, c.map goToLower ∈ CLITICS) := by
  refine ⟨by decide, by decide, by decide, segmentWord_of_no_match,
    fun w => (segmentWord_spec w).1, ?_, fun w => (segmentWord_spec w).2.2⟩
  intro w cl hm
  have hn := (segmentWord_spec w).2.1
  have hne := List.find?_eq_none.mp hn cl hm
  simp only [Bool.not_eq_true] at hne
  exact hne

theorem clitic_segmentation_spec_witness :
    segmentWord "talo".toList = ("talo".toList, []) :=
  clitic_segmentation_spec.2.2.2.1 "talo".toList (by decide)

/-- C8: `diffStrings` compares position-by-position over code points: a
position carries the mismatch flag `false` exactly when both strings have a
character there agreeing case-insensitively; a position present in only one
string is flagged mismatch on that side alone; `diff("talo", "talon")`
marks only position 4 (the target's `n`). -/
theorem diffStrings_positional_spec :
    (∀ input target : List Char,
       (diffStrings input target).1.length = input.length ∧
       (diffStrings input target).2.length = target.length) ∧
    (∀ (input target : List Char) (n : Nat) (a : Char), input[n]? = some a →
       (diffStrings input target).1[n]? =
         some (a, match target[n]? with
                  | some b => decide (goToLower a ≠ goToLower b)
                  | none => true)) ∧
    (∀ (input target : List Char) (n : Nat) (b : Char), target[n]? = some b →
       (diffStrings input target).2[n]? =
         some (b, match input[n]? with
                  | some a => decide (goToLower a ≠ goToLower b)
                  | none => true)) ∧
    diffStrings "talo".toList "talon".toList =
      ([('t', false), ('a', false), ('l', false), ('o', false)],
       [('t', false), ('a', false), ('l', false), ('o', false), ('n', true)]) :=
  ⟨diffStrings_length, diffStrings_input_char, diffStrings_target_char, by decide⟩

theorem diffStrings_positional_spec_witness :
    (diffStrings "talo".toList "talon".toList).2[4]? = some ('n', true) := by
  have := diffStrings_positional_spec.2.2.1 "talo".toList "talon".toList 4 'n' (by decide)
  simpa using this

/-- C9: `cipherWord` maps each character independently and
case-insensitively — a/o/u to `'U'`, e/i to `'E'`, ä/ö/y to `'Ä'`, the
other consonant letters to `'x'` — and passes every other character through
unchanged, so the output always has exactly as many code points as the
input. -/
theorem cipher_char_classes :
    (∀ c ∈ "aouAOU".toList, cipherChar c = 'U') ∧
    (∀ c ∈ "eiEI".toList, cipherChar c = 'E') ∧
    (∀ c ∈ "äöyÄÖY".toList, cipherChar c = 'Ä') ∧
    (∀ c ∈ "bcdfghjklmnpqrstvwxzBCDFGHJKLMNPQRSTVWXZ".toList, cipherChar c = 'x') ∧
    (∀ c : Char, c ∉ "aouAOU".toList → c ∉ "eiEI".toList → c ∉ "äöyÄÖY".toList →
       c ∉ "bcdfghjklmnpqrstvwxzBCDFGHJKLMNPQRSTVWXZ".toList → cipherChar c = c) ∧
    (∀ s : List Char, cipherWord s = s.map cipherChar) ∧
    (∀ s : List Char, (cipherWord s).length = s.length) := by
  refine ⟨by decide, by decide, by decide, by decide, ?_, fun s => rfl, ?_⟩
  · intro c h1 h2 h3 h4
    unfold cipherChar
    rw [if_neg h1, if_neg h2, if_neg h3, if_neg h4]
  · intro s
    simp [cipherWord]

theorem cipher_char_classes_witness :
    cipherChar 'a' = 'U' ∧ cipherChar '-' = '-' ∧
    (cipherWord "Minä!".toList).length = ("Minä!".toList).length :=
  ⟨cipher_char_classes.1 'a' (by decide),
   cipher_char_classes.2.2.2.2.1 '-' (by decide) (by decide) (by decide) (by decide),
   cipher_char_classes.2.2.2.2.2.2 "Minä!".toList⟩

/-- C10: clitic segmentation is lossless — concatenating the returned stem
with the detached clitic substrings in their original left-to-right order
reconstructs the original word exactly, with no characters added, dropped,
or re-cased. -/
theorem clitic_segmentation_lossless (w : List Char) :
    (segmentWord w).1 ++ (segmentWord w).2.flatten = w :=
  (segmentWord_spec w).1

/-! ## Lemmas about the round state machine -/

lemma updateRoundOverEnter_effects (shuffle : List Sentence → List Sentence)
    (m : Model) : ∀ e ∈ (updateRoundOverEnter shuffle m).2, e = Effect.quit := by
  intro e he
  simp only [updateRoundOverEnter] at he
  split at he
  · split at he
    · simpa using he
    · simp at he
  · simp at he

lemma submitGuess_recovery_effects (m : Model) (inputVal : List Char) (dur : Nat)
    (hrec : m.isRecoveryRound = true) : (submitGuess m inputVal dur).2 = [] := by
  simp only [submitGuess, hrec, if_true]
  split
  · split <;> simp
  · simp

lemma submitGuess_incorrect (m : Model) (inp : List Char) (dur : Nat)
    (hbad : cleanWord inp ≠ wordAt (sentAt m.sessionSentences m.sentenceIdx).cleanWords m.wordIdx) :
    submitGuess m inp dur =
      ({ m with state := GState.roundOver,
                roundAnalytics := m.roundAnalytics ++
                  [{ wordIndex := m.wordIdx, userInput := inp, isCorrect := false, duration := dur }],
                roundResultIsCorrect := false },
       (if m.isRecoveryRound then [] else
          [Effect.logPlay (sentAt m.sessionSentences m.sentenceIdx).id false]) ++
       (if m.isRecoveryRound then [] else
          [Effect.logSentenceResult (sentAt m.sessionSentences m.sentenceIdx).id false
            (m.roundAnalytics ++
              [{ wordIndex := m.wordIdx, userInput := inp, isCorrect := false, duration := dur }])])) := by
  unfold submitGuess
  simp [hbad]

lemma submitGuess_correct_mid (m : Model) (inp : List Char) (dur : Nat)
    (hok : cleanWord inp = wordAt (sentAt m.sessionSentences m.sentenceIdx).cleanWords m.wordIdx)
    (hmid : m.wordIdx + 1 < (sentAt m.sessionSentences m.sentenceIdx).words.length) :
    submitGuess m inp dur =
      ({ m with wordIdx := m.wordIdx + 1,
                roundAnalytics := m.roundAnalytics ++
                  [{ wordIndex := m.wordIdx, userInput := inp, isCorrect := true, duration := dur }],
                roundResultIsCorrect := false },
       if m.isRecoveryRound then [] else
         [Effect.logPlay (sentAt m.sessionSentences m.sentenceIdx).id true]) := by
  unfold submitGuess
  have hnc : ¬ (sentAt m.sessionSentences m.sentenceIdx).words.length ≤ m.wordIdx + 1 :=
    Nat.not_le.mpr hmid
  simp [hok, hnc]

/-! ## Concrete example data -/

/-- A two-word sentence from the spec's end-to-end example. -/
def minaMenenSentence : Sentence :=
  { id := 1, scenario := "daily", finnish := "Minä menen", english := "I go",
    words := ["Minä".toList, "menen".toList],
    cleanWords := [cleanWord "Minä".toList, cleanWord "menen".toList] }

/-- A one-word sentence whose only token is pure punctuation, normalizing
to the empty string. -/
def punctuationSentence : Sentence :=
  { id := 7, scenario := "daily", finnish := "...", english := "dots",
    words := ["...".toList],
    cleanWords := [cleanWord "...".toList] }

/-- A model mid-recovery-round, at the start of `minaMenenSentence`. -/
def mRecExample : Model :=
  { state := GState.playing, allSentences := [minaMenenSentence],
    sessionSentences := [minaMenenSentence], sentenceIdx := 0, wordIdx := 0,
    roundAnalytics := [], roundResultIsCorrect := false,
    isRecoveryRound := true, failedSentenceIDs := [] }

/-- A non-recovery model at the start of `minaMenenSentence`. -/
def mPlayExample : Model :=
  { state := GState.playing, allSentences := [minaMenenSentence],
    sessionSentences := [minaMenenSentence], sentenceIdx := 0, wordIdx := 0,
    roundAnalytics := [], roundResultIsCorrect := false,
    isRecoveryRound := false, failedSentenceIDs := [] }

/-- A non-recovery model at the start of `punctuationSentence`. -/
def mPunctExample : Model :=
  { state := GState.playing, allSentences := [punctuationSentence],
    sessionSentences := [punctuationSentence], sentenceIdx := 0, wordIdx := 0,
    roundAnalytics := [], roundResultIsCorrect := false,
    isRecoveryRound := false, failedSentenceIDs := [] }

/-- A model acknowledging the failed last (and only) sentence of a pass. -/
def mAckExample : Model :=
  { state := GState.roundOver, allSentences := [minaMenenSentence],
    sessionSentences := [minaMenenSentence], sentenceIdx := 0, wordIdx := 1,
    roundAnalytics := [{ wordIndex := 0, userInput := "Minä".toList, isCorrect := true, duration := 5 },
                       { wordIndex := 1, userInput := "meen".toList, isCorrect := false, duration := 7 }],
    roundResultIsCorrect := false, isRecoveryRound := false,
    failedSentenceIDs := [] }

/-! ## Claim theorems for the round state machine -/

/-- C1: while the recovery flag is set, no Enter transition (guess
submission or round acknowledgment) emits a persistence effect: neither a
per-guess play record nor a SentenceResult is written, so recovery plays
never appear in the persisted history. -/
theorem recovery_round_no_persistence (shuffle : List Sentence → List Sentence)
    (inputVal : List Char) (dur : Nat) (m : Model)
    (hrec : m.isRecoveryRound = true) :
    ∀ e ∈ (updatePlayingEnter shuffle inputVal dur m).2, e.isPersisted = false := by
  intro e he
  unfold updatePlayingEnter at he
  split at he
  · have hq := updateRoundOverEnter_effects shuffle m e he
    subst hq
    rfl
  · rw [submitGuess_recovery_effects m inputVal dur hrec] at he
    simp at he

theorem recovery_round_no_persistence_witness :
    (updatePlayingEnter id "meen".toList 3 mRecExample).2.all
      (fun e => !e.isPersisted) = true := by
  rw [List.all_eq_true]
  intro e he
  have h := recovery_round_no_persistence id "meen".toList 3 mRecExample rfl e he
  simp [h]

/-- The expected attempt records for a run of correct guesses starting at
word index `w0` (spec-side description of what the analytics should hold). -/
def goodAttempts (w0 : Nat) : List (List Char × Nat) → List WordAttemptData
  | [] => []
  | (g, d) :: rest =>
    { wordIndex := w0, userInput := g, isCorrect := true, duration := d } ::
      goodAttempts (w0 + 1) rest

lemma goodAttempts_length (w0 : Nat) :
    ∀ gs : List (List Char × Nat), (goodAttempts w0 gs).length = gs.length := by
  intro gs
  induction gs generalizing w0 with
  | nil => rfl
  | cons g rest ih =>
    obtain ⟨gi, gd⟩ := g
    simp [goodAttempts, ih]

lemma goodAttempts_get (w0 : Nat) :
    ∀ (gs : List (List Char × Nat)) (i : Nat) (a : WordAttemptData),
      (goodAttempts w0 gs)[i]? = some a →
      a.wordIndex = w0 + i ∧ a.isCorrect = true ∧
        ∃ hi : i < gs.length,
          a.userInput = (gs.get ⟨i, hi⟩).1 ∧ a.duration = (gs.get ⟨i, hi⟩).2 := by
  intro gs
  induction gs generalizing w0 with
  | nil => intro i a h; simp [goodAttempts] at h
  | cons g rest ih =>
    obtain ⟨gi, gd⟩ := g
    intro i a h
    cases i with
    | zero =>
      simp only [goodAttempts, List.getElem?_cons_zero, Option.some_inj] at h
      subst h
      exact ⟨by simp, rfl, by simp, rfl, rfl⟩
    | succ n =>
      simp only [goodAttempts, List.getElem?_cons_succ] at h
      obtain ⟨h1, h2, hn, h3, h4⟩ := ih (w0 + 1) n a h
      refine ⟨by omega, h2, by simpa using hn, by simpa using h3, by simpa using h4⟩

lemma updatePlayingEnter_playing (shuffle : List Sentence → List Sentence)
    (inp : List Char) (dur : Nat) (m : Model)
    (hstate : m.state = GState.playing) :
    updatePlayingEnter shuffle inp dur m = submitGuess m inp dur := by
  unfold updatePlayingEnter
  rw [if_neg]
  simp [hstate]

lemma runEnters_fail (shuffle : List Sentence → List Sentence) :
    ∀ (goods : List (List Char × Nat)) (m : Model) (bad : List Char × Nat),
      m.state = GState.playing →
      m.wordIdx + goods.length < (sentAt m.sessionSentences m.sentenceIdx).words.length →
      (∀ (i : Nat) (hi : i < goods.length),
        cleanWord (goods.get ⟨i, hi⟩).1 =
          wordAt (sentAt m.sessionSentences m.sentenceIdx).cleanWords (m.wordIdx + i)) →
      cleanWord bad.1 ≠
        wordAt (sentAt m.sessionSentences m.sentenceIdx).cleanWords (m.wordIdx + goods.length) →
      runEnters shuffle m (goods ++ [bad]) =
        { m with state := GState.roundOver,
                 wordIdx := m.wordIdx + goods.length,
                 roundAnalytics := m.roundAnalytics ++ goodAttempts m.wordIdx goods ++
                   [{ wordIndex := m.wordIdx + goods.length, userInput := bad.1,
                      isCorrect := false, duration := bad.2 }],
                 roundResultIsCorrect := false } := by
  intro goods
  induction goods with
  | nil =>
    intro m bad hstate hlen hok hbad
    obtain ⟨bi, bd⟩ := bad
    simp only [List.nil_append, runEnters]
    rw [updatePlayingEnter_playing shuffle bi bd m hstate]
    rw [submitGuess_incorrect m bi bd (by simpa using hbad)]
    simp [runEnters, goodAttempts]
  | cons g gs ih =>
    intro m bad hstate hlen hok hbad
    obtain ⟨gi, gd⟩ := g
    have hok0 : cleanWord gi =
        wordAt (sentAt m.sessionSentences m.sentenceIdx).cleanWords m.wordIdx := by
      have := hok 0 (by simp)
      simpa using this
    have hmid : m.wordIdx + 1 < (sentAt m.sessionSentences m.sentenceIdx).words.length := by
      simp only [List.length_cons] at hlen
      omega
    have hstep : runEnters shuffle m (((gi, gd) :: gs) ++ [bad]) =
        runEnters shuffle
          { m with wordIdx := m.wordIdx + 1,
                   roundAnalytics := m.roundAnalytics ++
                     [{ wordIndex := m.wordIdx, userInput := gi, isCorrect := true,
                        duration := gd }],
                   roundResultIsCorrect := false } (gs ++ [bad]) := by
      simp only [List.cons_append, runEnters]
      rw [updatePlayingEnter_playing shuffle gi gd m hstate,
        submitGuess_correct_mid m gi gd hok0 hmid]
      rfl
    have h2 : m.wordIdx + 1 + gs.length <
        (sentAt m.sessionSentences m.sentenceIdx).words.length := by
      simp only [List.length_cons] at hlen
      omega
    have h3 : ∀ (i : Nat) (hi : i < gs.length),
        cleanWord (gs.get ⟨i, hi⟩).1 =
          wordAt (sentAt m.sessionSentences m.sentenceIdx).cleanWords (m.wordIdx + 1 + i) := by
      intro i hi
      have h' := hok (i + 1) (by simpa using Nat.succ_lt_succ hi)
      simp only [List.get_cons_succ] at h'
      have harith : m.wordIdx + (i + 1) = m.wordIdx + 1 + i := by omega
      rwa [harith] at h'
    have h4 : cleanWord bad.1 ≠
        wordAt (sentAt m.sessionSentences m.sentenceIdx).cleanWords (m.wordIdx + 1 + gs.length) := by
      have harith : m.wordIdx + ((gi, gd) :: gs).length = m.wordIdx + 1 + gs.length := by
        simp only [List.length_cons]
        omega
      rwa [harith] at hbad
    rw [hstep]
    rw [ih { m with wordIdx := m.wordIdx + 1,
                    roundAnalytics := m.roundAnalytics ++
                      [{ wordIndex := m.wordIdx, userInput := gi, isCorrect := true,
                         duration := gd }],
                    roundResultIsCorrect := false } bad hstate h2 h3 h4]
    have e : m.wordIdx + 1 + gs.length = m.wordIdx + (gs.length + 1) := by omega
    simp only [goodAttempts, List.length_cons, e, List.append_assoc, List.cons_append,
      List.singleton_append, List.nil_append]

/-- C3: for every sentence run that ends in failure after `k` correct
guesses, the recorded attempt list is exactly one attempt per word index
`0 .. k`: the first `k` attempts are the correct guesses (index `i` holding
the i-th raw input, flagged correct), the final attempt is the single
incorrect guess at index `k`, and no attempt exists beyond index `k`. -/
theorem failed_sentence_attempt_trace (shuffle : List Sentence → List Sentence)
    (goods : List (List Char × Nat)) (bad : List Char × Nat) (m : Model)
    (hstate : m.state = GState.playing) (hw0 : m.wordIdx = 0)
    (ha0 : m.roundAnalytics = [])
    (hlen : goods.length < (sentAt m.sessionSentences m.sentenceIdx).words.length)
    (hok : ∀ (i : Nat) (hi : i < goods.length),
      cleanWord (goods.get ⟨i, hi⟩).1 =
        wordAt (sentAt m.sessionSentences m.sentenceIdx).cleanWords i)
    (hbad : cleanWord bad.1 ≠
      wordAt (sentAt m.sessionSentences m.sentenceIdx).cleanWords goods.length) :
    (runEnters shuffle m (goods ++ [bad])).roundAnalytics =
      goodAttempts 0 goods ++
        [{ wordIndex := goods.length, userInput := bad.1, isCorrect := false,
           duration := bad.2 }] ∧
    (runEnters shuffle m (goods ++ [bad])).state = GState.roundOver ∧
    (runEnters shuffle m (goods ++ [bad])).roundResultIsCorrect = false ∧
    (goodAttempts 0 goods).length = goods.length ∧
    (∀ (i : Nat) (a : WordAttemptData), (goodAttempts 0 goods)[i]? = some a →
      a.wordIndex = i ∧ a.isCorrect = true ∧
        ∃ hi : i < goods.length,
          a.userInput = (goods.get ⟨i, hi⟩).1 ∧ a.duration = (goods.get ⟨i, hi⟩).2) := by
  have hrun := runEnters_fail shuffle goods m bad hstate
    (by rw [hw0]; simpa using hlen)
    (by intro i hi; rw [hw0]; simpa using hok i hi)
    (by rw [hw0]; simpa using hbad)
  rw [hrun]
  refine ⟨by simp [ha0, hw0], rfl, rfl, goodAttempts_length 0 goods, ?_⟩
  intro i a h
  have := goodAttempts_get 0 goods i a h
  simpa using this

theorem failed_sentence_attempt_trace_witness :
    (runEnters id mPlayExample [("Minä".toList, 5), ("meen".toList, 7)]).roundAnalytics =
      [{ wordIndex := 0, userInput := "Minä".toList, isCorrect := true, duration := 5 },
       { wordIndex := 1, userInput := "meen".toList, isCorrect := false, duration := 7 }] := by
  have h := failed_sentence_attempt_trace id [("Minä".toList, 5)] ("meen".toList, 7)
    mPlayExample rfl rfl rfl (by decide) (by decide) (by decide)
  simpa [goodAttempts] using h.1

/-- C4 (code-bug evidence): in the Go round state machine there is no
auto-advance for a word whose normalized form is empty — the machine stays
on the token awaiting input, and once the learner submits (the empty
submission matches the empty target) a WordAttempt IS recorded for it and a
play (and here a sentence result) IS logged, contrary to the documented
behavior of skipping such tokens without recording anything (which the
legacy bash implementation does implement). -/
theorem punctuation_token_not_auto_advanced :
    cleanWord "...".toList = [] ∧
    (updatePlayingEnter id [] 0 mPunctExample).1.roundAnalytics =
      [{ wordIndex := 0, userInput := [], isCorrect := true, duration := 0 }] ∧
    (updatePlayingEnter id [] 0 mPunctExample).2 =
      [Effect.logPlay 7 true,
       Effect.logSentenceResult 7 true
         [{ wordIndex := 0, userInput := [], isCorrect := true, duration := 0 }]] ∧
    (updatePlayingEnter id [] 0 mPunctExample).1.state = GState.roundOver := by
  decide

/-- C5 counterexample: submitting an empty input while Playing on a
guessable word is NOT a no-op — at this concrete state it changes the
state, records a WordAttempt, fails the sentence, and even persists the
failure. -/
theorem empty_submission_not_noop :
    (updatePlayingEnter id [] 0 mPlayExample).1 ≠ mPlayExample ∧
    (updatePlayingEnter id [] 0 mPlayExample).1.roundAnalytics =
      [{ wordIndex := 0, userInput := [], isCorrect := false, duration := 0 }] ∧
    (updatePlayingEnter id [] 0 mPlayExample).1.state = GState.roundOver ∧
    (updatePlayingEnter id [] 0 mPlayExample).1.roundResultIsCorrect = false ∧
    (updatePlayingEnter id [] 0 mPlayExample).2 =
      [Effect.logPlay 1 false,
       Effect.logSentenceResult 1 false
         [{ wordIndex := 0, userInput := [], isCorrect := false, duration := 0 }]] := by
  decide

/-- C5 amended: submitting an input that normalizes to the empty string
while Playing on a guessable word (non-empty normalized target) is treated
as an ordinary incorrect guess, not a no-op: a WordAttempt with the raw
input is recorded, the sentence fails immediately
(`RoundOver(sentenceIdx, false)`), and unless in a recovery round the play
and the failed sentence result are persisted. -/
theorem empty_submission_fails_sentence (shuffle : List Sentence → List Sentence)
    (inp : List Char) (dur : Nat) (m : Model)
    (hstate : m.state = GState.playing)
    (hempty : cleanWord inp = [])
    (htarget : wordAt (sentAt m.sessionSentences m.sentenceIdx).cleanWords m.wordIdx ≠ []) :
    updatePlayingEnter shuffle inp dur m =
      ({ m with state := GState.roundOver,
                roundAnalytics := m.roundAnalytics ++
                  [{ wordIndex := m.wordIdx, userInput := inp, isCorrect := false,
                     duration := dur }],
                roundResultIsCorrect := false },
       (if m.isRecoveryRound then [] else
          [Effect.logPlay (sentAt m.sessionSentences m.sentenceIdx).id false]) ++
       (if m.isRecoveryRound then [] else
          [Effect.logSentenceResult (sentAt m.sessionSentences m.sentenceIdx).id false
            (m.roundAnalytics ++
              [{ wordIndex := m.wordIdx, userInput := inp, isCorrect := false,
                 duration := dur }])])) := by
  rw [updatePlayingEnter_playing shuffle inp dur m hstate]
  refine submitGuess_incorrect m inp dur ?_
  rw [hempty]
  exact fun h => htarget h.symm

theorem empty_submission_fails_sentence_witness :
    (updatePlayingEnter id [] 9 mPlayExample).1.state = GState.roundOver := by
  have h := empty_submission_fails_sentence id [] 9 mPlayExample rfl (by decide) (by decide)
  rw [h]

/-! ## Lemmas about the recovery scheduler -/

lemma insertId_nodup {l : List Int} (h : l.Nodup) (id : Int) :
    (insertId l id).Nodup := by
  unfold insertId
  split
  · exact h
  · rename_i hmem
    simp [List.nodup_append, h, hmem]

lemma ackFailureSet_nodup {m : Model} (h : m.failedSentenceIDs.Nodup) :
    (ackFailureSet m).Nodup := by
  unfold ackFailureSet
  split
  · exact h
  · exact insertId_nodup h _

lemma foldl_lookup_some :
    ∀ (l : List Sentence) (id : Int) (acc : Option Sentence) (s : Sentence),
      l.foldl (fun a t => if t.id = id then some t else a) acc = some s →
      (s.id = id ∧ s ∈ l) ∨ acc = some s := by
  intro l
  induction l with
  | nil => intro id acc s h; right; exact h
  | cons t ts ih =>
    intro id acc s h
    simp only [List.foldl_cons] at h
    rcases ih id _ s h with ⟨h1, h2⟩ | hacc
    · exact Or.inl ⟨h1, List.mem_cons_of_mem _ h2⟩
    · by_cases ht : t.id = id
      · rw [if_pos ht] at hacc
        obtain rfl : t = s := by simpa using hacc
        exact Or.inl ⟨ht, List.mem_cons_self _ _⟩
      · rw [if_neg ht] at hacc
        exact Or.inr hacc

lemma foldl_lookup_isSome :
    ∀ (l : List Sentence) (id : Int) (acc : Option Sentence),
      ((∃ s ∈ l, s.id = id) ∨ acc.isSome) →
      (l.foldl (fun a t => if t.id = id then some t else a) acc).isSome := by
  intro l
  induction l with
  | nil =>
    intro id acc h
    rcases h with ⟨s, hs, _⟩ | h
    · simp at hs
    · exact h
  | cons t ts ih =>
    intro id acc h
    simp only [List.foldl_cons]
    rcases h with ⟨s, hs, hid⟩ | h
    · rcases List.mem_cons.mp hs with rfl | hs'
      · exact ih id _ (Or.inr (by simp [hid]))
      · exact ih id _ (Or.inl ⟨s, hs', hid⟩)
    · refine ih id _ (Or.inr ?_)
      by_cases ht : t.id = id <;> simp [ht, h]

lemma lookupById_some {l : List Sentence} {id : Int} {s : Sentence}
    (h : lookupById l id = some s) : s.id = id ∧ s ∈ l := by
  rcases foldl_lookup_some l id none s h with h' | h'
  · exact h'
  · simp at h'

lemma lookupById_isSome {l : List Sentence} {id : Int}
    (h : ∃ s ∈ l, s.id = id) : (lookupById l id).isSome :=
  foldl_lookup_isSome l id none (Or.inl h)

lemma filterMap_lookup_ids (all : List Sentence) :
    ∀ failed : List Int, (∀ id ∈ failed, ∃ s ∈ all, s.id = id) →
      (failed.filterMap (lookupById all)).map Sentence.id = failed := by
  intro failed
  induction failed with
  | nil => intro; rfl
  | cons id rest ih =>
    intro h
    have hs : (lookupById all id).isSome := lookupById_isSome (h id (by simp))
    obtain ⟨s, hsome⟩ := Option.isSome_iff_exists.mp hs
    rw [List.filterMap_cons]
    rw [hsome]
    simp only [List.map_cons]
    rw [(lookupById_some hsome).1, ih (fun i hi => h i (List.mem_cons_of_mem _ hi))]

lemma mem_filterMap_lookup {all : List Sentence} {failed : List Int} {s : Sentence}
    (h : s ∈ failed.filterMap (lookupById all)) : s ∈ all := by
  obtain ⟨id, _, hsome⟩ := List.mem_filterMap.mp h
  exact (lookupById_some hsome).2

lemma updateRoundOverEnter_last_done (shuffle : List Sentence → List Sentence)
    (m : Model) (hlast : m.sessionSentences.length ≤ m.sentenceIdx + 1)
    (hempty : ackFailureSet m = []) :
    updateRoundOverEnter shuffle m =
      ({ m with failedSentenceIDs := ackFailureSet m,
                sentenceIdx := m.sentenceIdx + 1 }, [Effect.quit]) := by
  simp only [updateRoundOverEnter]
  rw [if_pos hlast, if_pos (by simp [hempty])]

lemma updateRoundOverEnter_last_recovery (shuffle : List Sentence → List Sentence)
    (m : Model) (hlast : m.sessionSentences.length ≤ m.sentenceIdx + 1)
    (hne : ackFailureSet m ≠ []) :
    updateRoundOverEnter shuffle m =
      ({ m with sessionSentences := recoveryQueue shuffle m (ackFailureSet m),
                isRecoveryRound := true, failedSentenceIDs := [],
                sentenceIdx := 0, state := GState.playing, wordIdx := 0,
                roundAnalytics := [] }, []) := by
  simp only [updateRoundOverEnter]
  rw [if_pos hlast, if_neg (by simp [hne])]

/-- C2: acknowledging the last sentence of a pass: if the failure set
(after recording the just-completed sentence) is empty, the session
terminates; otherwise the next queue is exactly the sentences whose
identifiers are in the failure set — each identifier exactly once, in
shuffled order — that queue is flagged recovery, the failure set is reset
to empty, and play restarts at sentence index 0, word index 0. -/
theorem recovery_scheduler_spec (shuffle : List Sentence → List Sentence)
    (inputVal : List Char) (dur : Nat) (m : Model)
    (hsh : ∀ l, List.Perm (shuffle l) l)
    (hstate : m.state = GState.roundOver)
    (hlast : m.sentenceIdx + 1 = m.sessionSentences.length)
    (hnd : m.failedSentenceIDs.Nodup)
    (hres : ∀ id ∈ ackFailureSet m, ∃ s ∈ m.allSentences, s.id = id) :
    (ackFailureSet m = [] →
       (updatePlayingEnter shuffle inputVal dur m).2 = [Effect.quit]) ∧
    (ackFailureSet m ≠ [] →
       (updatePlayingEnter shuffle inputVal dur m).2 = [] ∧
       (updatePlayingEnter shuffle inputVal dur m).1.state = GState.playing ∧
       (updatePlayingEnter shuffle inputVal dur m).1.sentenceIdx = 0 ∧
       (updatePlayingEnter shuffle inputVal dur m).1.wordIdx = 0 ∧
       (updatePlayingEnter shuffle inputVal dur m).1.roundAnalytics = [] ∧
       (updatePlayingEnter shuffle inputVal dur m).1.isRecoveryRound = true ∧
       (updatePlayingEnter shuffle inputVal dur m).1.failedSentenceIDs = [] ∧
       (ackFailureSet m).Nodup ∧
       List.Perm
         ((updatePlayingEnter shuffle inputVal dur m).1.sessionSentences.map Sentence.id)
         (ackFailureSet m) ∧
       (∀ s ∈ (updatePlayingEnter shuffle inputVal dur m).1.sessionSentences,
          s ∈ m.allSentences)) := by
  have hE : updatePlayingEnter shuffle inputVal dur m = updateRoundOverEnter shuffle m := by
    unfold updatePlayingEnter
    rw [if_pos hstate]
  have hlen : m.sessionSentences.length ≤ m.sentenceIdx + 1 := le_of_eq hlast.symm
  constructor
  · intro hempty
    rw [hE, updateRoundOverEnter_last_done shuffle m hlen hempty]
  · intro hne
    rw [hE, updateRoundOverEnter_last_recovery shuffle m hlen hne]
    have hperm : List.Perm
        ((recoveryQueue shuffle m (ackFailureSet m)).map Sentence.id)
        (ackFailureSet m) := by
      unfold recoveryQueue
      have h1 := (hsh ((ackFailureSet m).filterMap (lookupById m.allSentences))).map Sentence.id
      rwa [filterMap_lookup_ids m.allSentences (ackFailureSet m) hres] at h1
    refine ⟨rfl, rfl, rfl, rfl, rfl, rfl, rfl, ackFailureSet_nodup hnd, hperm, ?_⟩
    intro s hs
    have hsL : s ∈ (ackFailureSet m).filterMap (lookupById m.allSentences) :=
      ((hsh _).mem_iff).mp hs
    exact mem_filterMap_lookup hsL

theorem recovery_scheduler_spec_witness :
    (updatePlayingEnter id [] 0 mAckExample).1.isRecoveryRound = true ∧
    (updatePlayingEnter id [] 0 mAckExample).1.failedSentenceIDs = [] ∧
    (updatePlayingEnter id [] 0 mAckExample).1.sentenceIdx = 0 ∧
    (updatePlayingEnter id [] 0 mAckExample).1.wordIdx = 0 := by
  have h := recovery_scheduler_spec id [] 0 mAckExample (fun l => List.Perm.refl l)
    rfl rfl (by decide) (by decide)
  have h2 := h.2 (by decide)
  exact ⟨h2.2.2.2.2.2.1, h2.2.2.2.2.2.2.1, h2.2.2.1, h2.2.2.2.1⟩

/-! ## Lemmas about session composition -/

/-- The contribution of one selected scenario to the session queue: the
first `min(quota, available)` sentences of the shuffled scenario group
(empty when the scenario has no sentences). -/
def blockFor (shuffle : List Sentence → List Sentence) (allSentences : List Sentence)
    (quota : Nat) (scenarioName : String) : List Sentence :=
  let scenarioSentences := allSentences.filter (fun s => s.scenario = scenarioName)
  if scenarioSentences.length = 0 then []
  else (shuffle scenarioSentences).take (min quota scenarioSentences.length)

lemma updateScenarioSelectionEnter_eq (shuffle : List Sentence → List Sentence)
    (all : List Sentence) (quota : Nat) (sel : List String) :
    updateScenarioSelectionEnter shuffle all sel quota =
      (sel.map (blockFor shuffle all quota)).flatten := by
  suffices haux : ∀ (sel : List String) (acc : List Sentence),
      List.foldl
        (fun acc scenarioName =>
          let scenarioSentences := all.filter (fun s => s.scenario = scenarioName)
          if scenarioSentences.length = 0 then acc
          else acc ++ (shuffle scenarioSentences).take (min quota scenarioSentences.length))
        acc sel = acc ++ (sel.map (blockFor shuffle all quota)).flatten by
    simpa [updateScenarioSelectionEnter] using haux sel []
  intro sel
  induction sel with
  | nil => intro acc; simp
  | cons name rest ih =>
    intro acc
    rw [List.foldl_cons, ih]
    show (if (all.filter (fun s => s.scenario = name)).length = 0 then acc
          else acc ++ (shuffle (all.filter (fun s => s.scenario = name))).take
            (min quota (all.filter (fun s => s.scenario = name)).length)) ++
        (rest.map (blockFor shuffle all quota)).flatten =
      acc ++ ((name :: rest).map (blockFor shuffle all quota)).flatten
    by_cases h : (all.filter (fun s => s.scenario = name)).length = 0
    · simp [h, blockFor]
    · simp [h, blockFor, List.append_assoc]

/-- Five distinct sentences, all in scenario `"a"`. -/
def exampleScenarioSentences : List Sentence :=
  [{ id := 1, scenario := "a", finnish := "yksi", english := "one",
     words := [['y']], cleanWords := [['y']] },
   { id := 2, scenario := "a", finnish := "kaksi", english := "two",
     words := [['k']], cleanWords := [['k']] },
   { id := 3, scenario := "a", finnish := "kolme", english := "three",
     words := [['m']], cleanWords := [['m']] },
   { id := 4, scenario := "a", finnish := "neljä", english := "four",
     words := [['n']], cleanWords := [['n']] },
   { id := 5, scenario := "a", finnish := "viisi", english := "five",
     words := [['v']], cleanWords := [['v']] }]

/-- C6: the session queue is the concatenation, over the selected scenarios
in their given order, of contiguous per-scenario blocks; each block holds
exactly `min(quota, available)` sentences, all tagged with that scenario and
distinct (when the sentence pool has no duplicates); a scenario with zero
matching sentences contributes nothing; quota 3 over a scenario with 5
sentences yields exactly 3 distinct sentences of that scenario. -/
theorem session_composition_blocks (shuffle : List Sentence → List Sentence)
    (all : List Sentence) (sel : List String) (quota : Nat)
    (hsh : ∀ l, List.Perm (shuffle l) l) :
    updateScenarioSelectionEnter shuffle all sel quota =
      (sel.map (blockFor shuffle all quota)).flatten ∧
    (∀ name, (blockFor shuffle all quota name).length =
       min quota (all.filter (fun s => s.scenario = name)).length) ∧
    (∀ name s, s ∈ blockFor shuffle all quota name → s.scenario = name ∧ s ∈ all) ∧
    (all.Nodup → ∀ name, (blockFor shuffle all quota name).Nodup) ∧
    (updateScenarioSelectionEnter id exampleScenarioSentences ["a"] 3).length = 3 ∧
    (updateScenarioSelectionEnter id exampleScenarioSentences ["a"] 3).Nodup ∧
    (∀ s ∈ updateScenarioSelectionEnter id exampleScenarioSentences ["a"] 3,
       s.scenario = "a") := by
  refine ⟨updateScenarioSelectionEnter_eq shuffle all quota sel, ?_, ?_, ?_,
    by decide, by decide, by decide⟩
  · intro name
    by_cases h : (all.filter (fun s => s.scenario = name)).length = 0
    · simp [blockFor, h]
    · simp only [blockFor, if_neg h, List.length_take,
        (hsh (all.filter (fun s => s.scenario = name))).length_eq]
      omega
  · intro name s hs
    by_cases h : (all.filter (fun s => s.scenario = name)).length = 0
    · simp [blockFor, h] at hs
    · simp only [blockFor, if_neg h] at hs
      have hs1 : s ∈ shuffle (all.filter (fun t => t.scenario = name)) :=
        List.mem_of_mem_take hs
      have hs2 : s ∈ all.filter (fun t => t.scenario = name) :=
        ((hsh _).mem_iff).mp hs1
      have := List.mem_filter.mp hs2
      exact ⟨by simpa using this.2, this.1⟩
  · intro hnd name
    by_cases h : (all.filter (fun s => s.scenario = name)).length = 0
    · simp [blockFor, h]
    · simp only [blockFor, if_neg h]
      have h1 : (all.filter (fun s => s.scenario = name)).Nodup := hnd.filter _
      have h2 : (shuffle (all.filter (fun s => s.scenario = name))).Nodup :=
        ((hsh _).nodup_iff).mpr h1
      exact h2.sublist (List.take_sublist _ _)

theorem session_composition_blocks_witness :
    (blockFor id exampleScenarioSentences 3 "a").length = 3 := by
  have h := (session_composition_blocks id exampleScenarioSentences ["a"] 3
    (fun l => List.Perm.refl l)).2.1 "a"
  rw [h]
  decide
